import Mathlib

/-!
# Verification of the VAR estimation/inference engine

Shallow embedding of the Go package in `application/` (datatypes.go,
functions.go): OLS estimation of a reduced-form VAR, recursive multi-step
forecasting, orthogonalized impulse responses, and pairwise Granger
causality F-tests.

Modelling conventions:
* `float64` arithmetic is idealized as exact rational arithmetic (`ℚ`).
* Results of calls into the external gonum library (SVD least-squares
  solve, generic least-squares `SolveVec`, Cholesky factorization, and the
  F-distribution CDF) are passed in as explicit parameters; theorems
  constrain them by the library's documented contract where a claim
  depends on it.
* Matrices are Mathlib `Matrix (Fin r) (Fin c) ℚ`; the raw observation
  table `ts.Y` is embedded as its entry function `ℕ → ℕ → ℚ` together
  with its dimensions `T`, `K`.
* gonum panics (e.g. `mat.NewVecDense` on a non-positive length) are
  modelled as an explicit `panic` outcome, distinct from error returns.
* The Go nil-pointer guards on the receiver and the time-series input
  (`rf == nil`, `ts == nil || ts.Y == nil`) have no counterpart here: the
  embedding passes the observation table as a total function, so those
  guards are omitted rather than modelled.
-/

namespace InfluenzaVAR

open Matrix

/-- Deterministic-term policy (datatypes.go: `DetNone | DetConst | DetTrend |
DetConstTrend`). -/
inductive Deterministic where
  | DetNone : Deterministic
  | DetConst : Deterministic
  | DetTrend : Deterministic
  | DetConstTrend : Deterministic
deriving DecidableEq

/-- Model specification (datatypes.go `ModelSpec`). `Lags` is a Go `int`,
hence `ℤ`. -/
structure ModelSpec where
  Lags : ℤ
  Deterministic : Deterministic
  HasExogenous : Bool
deriving DecidableEq

/-- Whether the spec includes a constant column (functions.go:
`spec.Deterministic == DetConst || spec.Deterministic == DetConstTrend`). -/
def hasConstD : Deterministic → Bool
  | .DetConst => true
  | .DetConstTrend => true
  | _ => false

/-- Whether the spec includes a trend column (functions.go:
`spec.Deterministic == DetTrend || spec.Deterministic == DetConstTrend`). -/
def hasTrendD : Deterministic → Bool
  | .DetTrend => true
  | .DetConstTrend => true
  | _ => false

/-- Number of deterministic columns (`detCols` in functions.go). -/
def detColsOf (spec : ModelSpec) : ℕ :=
  (if hasConstD spec.Deterministic then 1 else 0) +
    (if hasTrendD spec.Deterministic then 1 else 0)

/-- Column index of the trend coefficient (`detTrendIdx` in functions.go:
it is `detCols` as of just before the trend column is added). -/
def detTrendIdxOf (spec : ModelSpec) : ℕ :=
  if hasConstD spec.Deterministic then 1 else 0

/-- The lag order as a natural number (meaningful once `Lags > 0` was
checked, mirroring the Go code's use of the `int` after its guard). -/
def pOf (spec : ModelSpec) : ℕ := spec.Lags.toNat

/-- Number of usable regression rows, `Treg = T - p` (functions.go line 350). -/
def tregOf (T : ℕ) (spec : ModelSpec) : ℕ := T - pOf spec

/-- Total regressor count `m = detCols + p*K` (functions.go line 373). -/
def mOf (spec : ModelSpec) (K : ℕ) : ℕ := detColsOf spec + pOf spec * K

/-- Bounds-checked matrix access with `ℕ` indices (models gonum `At` on
indices that are in range in every execution the theorems talk about). -/
def mget {r c : ℕ} (M : Matrix (Fin r) (Fin c) ℚ) (i j : ℕ) : ℚ :=
  if h : i < r ∧ j < c then M ⟨i, h.1⟩ ⟨j, h.2⟩ else 0

/-- The deterministic leading segment of a design-matrix row: optional
constant `1.0`, then optional trend `t + p + 1` (functions.go lines
379-391 and 546-557; `timeIndex := float64(t + p + 1)` with `int`
arithmetic, hence the `ℤ` cast). -/
def xdetRow (spec : ModelSpec) (t : ℕ) : List ℚ :=
  (if hasConstD spec.Deterministic then [(1 : ℚ)] else []) ++
    (if hasTrendD spec.Deterministic then [(((t : ℤ) + spec.Lags + 1 : ℤ) : ℚ)] else [])

/-- Row `t` of the (unrestricted) design matrix as the list of values
written by the column-incrementing loop of functions.go lines 379-401:
deterministic columns, then for `j = 1..p` the `K` entries
`Y (t + p - j) k` in variable order. -/
def xrow (Y : ℕ → ℕ → ℚ) (spec : ModelSpec) (K t : ℕ) : List ℚ :=
  xdetRow spec t ++
    (List.range (pOf spec)).flatMap fun j =>
      (List.range K).map fun k => Y (t + pOf spec - (j + 1)) k

/-- The design matrix `X` (functions.go line 375). -/
def Xmat (T K : ℕ) (Y : ℕ → ℕ → ℚ) (spec : ModelSpec) :
    Matrix (Fin (tregOf T spec)) (Fin (mOf spec K)) ℚ :=
  Matrix.of fun t c => (xrow Y spec K (t : ℕ)).getD (c : ℕ) 0

/-- The response matrix `Yreg`: row `t` is `observations[t+p, :]`
(functions.go lines 353-358). -/
def Ymat (T K : ℕ) (Y : ℕ → ℕ → ℚ) (spec : ModelSpec) :
    Matrix (Fin (tregOf T spec)) (Fin K) ℚ :=
  Matrix.of fun t k => Y ((t : ℕ) + pOf spec) (k : ℕ)

/-- The Gram matrix `X'X` (functions.go lines 408-409). -/
def xtxOf (T K : ℕ) (Y : ℕ → ℕ → ℚ) (spec : ModelSpec) :
    Matrix (Fin (mOf spec K)) (Fin (mOf spec K)) ℚ :=
  (Xmat T K Y spec)ᵀ * Xmat T K Y spec

/-- Kernel-computable determinant over `ℚ` by Laplace expansion along the
first row; equal to Mathlib's `Matrix.det` (lemma `detq_eq_det` below). -/
def detq : {n : ℕ} → Matrix (Fin n) (Fin n) ℚ → ℚ
  | 0, _ => 1
  | n + 1, M =>
      ∑ j : Fin (n + 1), (-1) ^ (j : ℕ) * M 0 j * detq (M.submatrix Fin.succ j.succAbove)

/-- Kernel-computable adjugate over `ℚ`, following the defining formula of
`Matrix.adjugate` (equal to it, lemma `adjq_eq_adjugate` below). -/
def adjq {n : ℕ} (M : Matrix (Fin n) (Fin n) ℚ) : Matrix (Fin n) (Fin n) ℚ :=
  Matrix.of fun i j => detq (M.updateRow j (Pi.single i 1))

/-- Computable matrix inverse over `ℚ` (equal to Mathlib's `⁻¹`, see
`qInvM_eq_inv`); models gonum `Inverse`, whose failure is idealized as
`det = 0`. -/
def qInvM {n : ℕ} (M : Matrix (Fin n) (Fin n) ℚ) : Matrix (Fin n) (Fin n) ℚ :=
  (detq M)⁻¹ • adjq M

/-- The normal-equation OLS coefficient matrix `B = (X'X)⁻¹ X'Yreg`
(functions.go lines 415-419). -/
def Bols (T K : ℕ) (Y : ℕ → ℕ → ℚ) (spec : ModelSpec) :
    Matrix (Fin (mOf spec K)) (Fin K) ℚ :=
  qInvM (xtxOf T K Y spec) * ((Xmat T K Y spec)ᵀ * Ymat T K Y spec)

/-- Sum of squared entries (squared Frobenius norm); used to state the
least-squares contract of the gonum solvers. -/
def sumSq {r c : ℕ} (M : Matrix (Fin r) (Fin c) ℚ) : ℚ :=
  ∑ i, ∑ j, (M i j) ^ 2

/-- Contract of gonum's `svd.SolveTo` (functions.go line 441): `B` is a
least-squares solution of `X·B ≈ Y` of minimum Frobenius norm among the
least-squares solutions. -/
def IsMinNormLS {n m k : ℕ} (X : Matrix (Fin n) (Fin m) ℚ)
    (Y : Matrix (Fin n) (Fin k) ℚ) (B : Matrix (Fin m) (Fin k) ℚ) : Prop :=
  (∀ B', sumSq (Y - X * B) ≤ sumSq (Y - X * B')) ∧
    (∀ B', sumSq (Y - X * B') = sumSq (Y - X * B) → sumSq B ≤ sumSq B')

/-- The fitted reduced-form VAR (datatypes.go `ReducedFormVAR`). `C` is the
`K × detCols` deterministic-coefficient matrix, embedded as its entry
function (zero outside its extent); `SigmaU` the residual covariance. -/
structure RFVar (K : ℕ) where
  Model : ModelSpec
  A : List (Matrix (Fin K) (Fin K) ℚ)
  C : Option (ℕ → ℕ → ℚ)
  SigmaU : Option (Matrix (Fin K) (Fin K) ℚ)

/-- Residual degrees of freedom used as covariance divisor
(functions.go lines 479-482): `df = Treg - m`, falling back to `Treg`
when that is non-positive. -/
def dfOf (Treg m : ℕ) : ℚ :=
  if ((Treg : ℤ) - m : ℤ) ≤ 0 then (Treg : ℚ) else (((Treg : ℤ) - m : ℤ) : ℚ)

/-- Residual covariance `SigmaU = (U'U)/df` with `U = Yreg - X·B`
(functions.go lines 469-490). -/
def SigmaOf {n m k : ℕ} (X : Matrix (Fin n) (Fin m) ℚ)
    (Yreg : Matrix (Fin n) (Fin k) ℚ) (B : Matrix (Fin m) (Fin k) ℚ) :
    Matrix (Fin k) (Fin k) ℚ :=
  Matrix.of fun i j => ((Yreg - X * B)ᵀ * (Yreg - X * B)) i j / dfOf n m

/-- Assemble the fitted model from a coefficient matrix `B`: split off the
deterministic coefficients `C` (`C[k][d] = B[d][k]`, functions.go lines
446-454), the lag matrices `A_j` (`A_j[eq][v] = B[detCols + j*K + v][eq]`,
lines 456-467), and the residual covariance (lines 469-490). -/
def mkRF (T K : ℕ) (Y : ℕ → ℕ → ℚ) (spec : ModelSpec)
    (B : Matrix (Fin (mOf spec K)) (Fin K) ℚ) : RFVar K :=
  { Model := spec
    A := (List.range (pOf spec)).map fun j =>
      Matrix.of fun eq v => mget B (detColsOf spec + j * K + (v : ℕ)) (eq : ℕ)
    C := if 0 < detColsOf spec then
        some (fun eq d => if eq < K ∧ d < detColsOf spec then mget B d eq else 0)
      else none
    SigmaU := some (SigmaOf (Xmat T K Y spec) (Ymat T K Y spec) B) }

/-- Error outcomes of `OLSEstimator.Estimate` (functions.go lines 330-347
and 420-443). -/
inductive EstErr where
  | badLags : EstErr
  | insufficientData : EstErr
  | exogenous : EstErr
  | numericalFailure : EstErr
deriving DecidableEq

/-- Embedding of `OLSEstimator.Estimate` (functions.go lines 330-500).
`svd` is the outcome of the external gonum SVD in the singular-design
fallback: `none` models `svd.Factorize` failing, `some sol` the solution
`svd.SolveTo` would produce for the effective rank.  The code's
`rank == 0` test (numerical rank at tolerance `1e-12`) is idealized in
exact arithmetic as `X = 0` (rank zero iff every singular value is zero
iff the matrix is zero), in which case the code sets `B = 0` itself
(functions.go lines 437-438). -/
def Estimate (T K : ℕ) (Y : ℕ → ℕ → ℚ) (spec : ModelSpec)
    (svd : Option (Matrix (Fin (mOf spec K)) (Fin K) ℚ)) :
    Except EstErr (RFVar K) :=
  if spec.Lags ≤ 0 then .error .badLags
  else if (T : ℤ) ≤ spec.Lags then .error .insufficientData
  else if spec.HasExogenous then .error .exogenous
  else if detq (xtxOf T K Y spec) ≠ 0 then
    .ok (mkRF T K Y spec (Bols T K Y spec))
  else
    match svd with
    | none => .error .numericalFailure
    | some sol =>
        .ok (mkRF T K Y spec (if Xmat T K Y spec = 0 then 0 else sol))

/-- Error outcomes of `ReducedFormVAR.Forecast` (functions.go lines 30-48). -/
inductive FcErr where
  | notEstimated : FcErr
  | badSteps : FcErr
  | badLags : FcErr
  | insufficientHistory : FcErr
deriving DecidableEq

/-- The deterministic contribution to one forecast value (functions.go
lines 91-99): constant coefficient plus trend coefficient times the
absolute time index, guarded by `rf.C != nil && detCols > 0`. -/
def detTermF {K : ℕ} (rf : RFVar K) (tIdx : ℚ) (eq : ℕ) : ℚ :=
  match rf.C with
  | some Cf =>
      if 0 < detColsOf rf.Model then
        (if hasConstD rf.Model.Deterministic then Cf eq 0 else 0) +
          (if hasTrendD rf.Model.Deterministic then Cf eq (detTrendIdxOf rf.Model) * tIdx else 0)
      else 0
  | none => 0

/-- The forecast working buffer after `s` steps (functions.go lines 50-113):
seeded with the last `p` rows of the history, then one appended row per
step, each entry being the deterministic term at time index `T + step + 1`
plus `Σ_{lag=1..p} A_lag[eq]·buffer[row-lag]`. -/
def fcBuf {K : ℕ} (rf : RFVar K) (Thist : ℕ) (yHist : ℕ → ℕ → ℚ) :
    ℕ → List (Fin K → ℚ)
  | 0 => (List.range (pOf rf.Model)).map fun i => fun k =>
      yHist (Thist - pOf rf.Model + i) (k : ℕ)
  | s + 1 =>
      let prev := fcBuf rf Thist yHist s
      prev ++ [fun (eq : Fin K) =>
        detTermF rf ((Thist + s + 1 : ℕ) : ℚ) (eq : ℕ) +
          ∑ lag ∈ Finset.Icc 1 (pOf rf.Model), ∑ j : Fin K,
            (rf.A.getD (lag - 1) 0) eq j *
              prev.getD (pOf rf.Model + s - lag) 0 j]

/-- Embedding of `ReducedFormVAR.Forecast` (functions.go lines 30-117):
after the guards, run the recursive buffer and return only the last
`steps` rows. -/
def Forecast {K : ℕ} (rf : RFVar K) (Thist : ℕ) (yHist : ℕ → ℕ → ℚ)
    (steps : ℤ) : Except FcErr (List (Fin K → ℚ)) :=
  if rf.A.length = 0 then .error .notEstimated
  else if steps ≤ 0 then .error .badSteps
  else if rf.Model.Lags ≤ 0 then .error .badLags
  else if (Thist : ℤ) < rf.Model.Lags then .error .insufficientHistory
  else .ok ((fcBuf rf Thist yHist steps.toNat).drop (pOf rf.Model))

/-- Error outcomes of `ReducedFormVAR.IRF` (functions.go lines 126-142). -/
inductive IrfErr where
  | notEstimated : IrfErr
  | badHorizon : IrfErr
  | badLags : IrfErr
  | badShockIndex : IrfErr
deriving DecidableEq

/-- Unit impulse: `1.0` at the shock index, `0` elsewhere (functions.go
lines 158 and 162). -/
def unitShock (K idx : ℕ) : Fin K → ℚ :=
  fun i => if (i : ℕ) = idx then 1 else 0

/-- Shock-vector construction (functions.go lines 144-163): if `SigmaU` is
present and the external Cholesky factorization succeeded (`chol = some L`),
the shock is column `idx` of `L`; otherwise the unit impulse.  `chol`
models the outcome of gonum's `chol.Factorize(rf.SigmaU)`. -/
def shockOf {K : ℕ} (SigmaU : Option (Matrix (Fin K) (Fin K) ℚ))
    (chol : Option (Matrix (Fin K) (Fin K) ℚ)) (idx : ℕ) : Fin K → ℚ :=
  match SigmaU with
  | some _ =>
      match chol with
      | some L => fun i => mget L (i : ℕ) idx
      | none => unitShock K idx
  | none => unitShock K idx

/-- The list `[Ψ_0, ..., Ψ_h]` of moving-average coefficient matrices
(functions.go lines 165-190): `Ψ_0 = I`, and each further
`Ψ_h = Σ_{j=1..maxLag} A_j·Ψ_{h-j}` with `maxLag = min h p`. -/
def psiList {K : ℕ} (A : List (Matrix (Fin K) (Fin K) ℚ)) (p : ℕ) :
    ℕ → List (Matrix (Fin K) (Fin K) ℚ)
  | 0 => [1]
  | h + 1 =>
      let prev := psiList A p h
      prev ++ [∑ j ∈ Finset.Icc 1 (min (h + 1) p),
        A.getD (j - 1) 0 * prev.getD (h + 1 - j) 0]

/-- The moving-average coefficient matrix `Ψ_h`. -/
def psi {K : ℕ} (A : List (Matrix (Fin K) (Fin K) ℚ)) (p h : ℕ) :
    Matrix (Fin K) (Fin K) ℚ :=
  (psiList A p h).getD h 0

/-- Embedding of `ReducedFormVAR.IRF` (functions.go lines 126-206): after
the guards, row `h` of the result is `Ψ_h · shock`. -/
def IRF {K : ℕ} (rf : RFVar K) (horizon shockIndex : ℤ)
    (chol : Option (Matrix (Fin K) (Fin K) ℚ)) :
    Except IrfErr (List (Fin K → ℚ)) :=
  if rf.A.length = 0 then .error .notEstimated
  else if horizon ≤ 0 then .error .badHorizon
  else if rf.Model.Lags ≤ 0 then .error .badLags
  else if shockIndex < 0 ∨ (K : ℤ) ≤ shockIndex then .error .badShockIndex
  else
    .ok ((List.range horizon.toNat).map fun h => fun i =>
      ∑ j : Fin K, psi rf.A (pOf rf.Model) h i j *
        shockOf rf.SigmaU chol shockIndex.toNat j)

/-- Error returns of `ReducedFormVAR.GrangerCausality`
(functions.go lines 504-638). -/
inductive GErr where
  | causeRange : GErr
  | effectRange : GErr
  | sameIdx : GErr
  | solveUFail : GErr
  | solveRFail : GErr
  | insufficientDof : GErr
deriving DecidableEq

/-- Result record of a Granger test (datatypes.go `GrangerCausalityResult`;
the two variable-name strings are omitted, they carry no content for the
claims). -/
structure GResult where
  FStatistic : ℚ
  PValue : ℚ
  Lags : ℤ
  Significant : Bool
deriving DecidableEq

/-- Outcome of a Granger-causality call: a gonum panic (aborting the
program), an error return, or a result. -/
inductive GOutcome where
  | panic : GOutcome
  | err (e : GErr) : GOutcome
  | ok (r : GResult) : GOutcome
deriving DecidableEq

/-- Row `t` of the restricted design matrix (functions.go lines 588-611):
identical to `xrow` except that within each lag block the cause variable's
column is skipped. -/
def xrowRstr (Y : ℕ → ℕ → ℚ) (spec : ModelSpec) (K causeIdx t : ℕ) : List ℚ :=
  xdetRow spec t ++
    (List.range (pOf spec)).flatMap fun j =>
      ((List.range K).filter fun k => k ≠ causeIdx).map fun k =>
        Y (t + pOf spec - (j + 1)) k

/-- Residual sum of squares of a fitted coefficient vector `β` against
rows `rowf` and responses `y` (functions.go lines 576-582 and 621-627:
`resid = y - X·β`, `rss = resid·resid`). -/
def rss (Treg mcols : ℕ) (rowf : ℕ → List ℚ) (β : ℕ → ℚ) (y : ℕ → ℚ) : ℚ :=
  ∑ t ∈ Finset.range Treg,
    (y t - ∑ c ∈ Finset.range mcols, (rowf t).getD c 0 * β c) ^ 2

/-- Response vector for the effect variable (functions.go lines 524-527). -/
def grangerYE (Y : ℕ → ℕ → ℚ) (spec : ModelSpec) (effectIdx : ℕ) : ℕ → ℚ :=
  fun t => Y (t + pOf spec) effectIdx

/-- A coefficient vector for the contract of gonum's `SolveVec`: it is a
least-squares solution for the given rows/responses. -/
def IsLSSol (Treg mcols : ℕ) (rowf : ℕ → List ℚ) (y : ℕ → ℚ) (β : ℕ → ℚ) : Prop :=
  ∀ β', rss Treg mcols rowf β y ≤ rss Treg mcols rowf β' y

/-- Degrees of freedom of the unrestricted Granger regression
(functions.go lines 633-635): `dof = Treg - mUnrestricted` computed in
`float64` from the `int` values. -/
def grangerDof (T : ℕ) (K : ℕ) (spec : ModelSpec) : ℚ :=
  (((T : ℤ) - spec.Lags : ℤ) : ℚ) - (((detColsOf spec : ℤ) + spec.Lags * K : ℤ) : ℚ)

/-- Residual sum of squares of the unrestricted Granger regression for the
fitted coefficient vector `βU` (functions.go lines 576-582). -/
def grangerRssU (T K : ℕ) (Y : ℕ → ℕ → ℚ) (spec : ModelSpec) (βU : ℕ → ℚ)
    (effectIdx : ℕ) : ℚ :=
  rss ((T : ℤ) - spec.Lags).toNat ((detColsOf spec : ℤ) + spec.Lags * K).toNat
    (fun t => xrow Y spec K t) βU (grangerYE Y spec effectIdx)

/-- Residual sum of squares of the restricted Granger regression for the
fitted coefficient vector `βR` (functions.go lines 621-627). -/
def grangerRssR (T K : ℕ) (Y : ℕ → ℕ → ℚ) (spec : ModelSpec) (βR : ℕ → ℚ)
    (causeIdx effectIdx : ℕ) : ℚ :=
  rss ((T : ℤ) - spec.Lags).toNat
    ((detColsOf spec : ℤ) + spec.Lags * ((K : ℤ) - 1)).toNat
    (fun t => xrowRstr Y spec K causeIdx t) βR (grangerYE Y spec effectIdx)

/-- The p-value clamping of functions.go lines 655-660: negative values
become `0`, then values above `1` become `1`. -/
def clamp01 (x : ℚ) : ℚ :=
  if 1 < (if x < 0 then 0 else x) then 1 else if x < 0 then 0 else x

/-- Embedding of `ReducedFormVAR.GrangerCausality` (functions.go lines
504-672).  `solU`/`solR` are the outcomes of the two external gonum
`SolveVec` calls (`none` models a solver error); `cdf d1 d2 x` models
`distuv.F{D1:d1, D2:d2}.CDF(x)`.  `mat.NewVecDense`/`mat.NewDense` panic
on non-positive dimensions, giving the `panic` outcomes.  The Go
`math.IsNaN || math.IsInf` test on the F-statistic is idealized in exact
arithmetic as its only sources: a zero restriction count `q` or a zero
unrestricted residual sum of squares. -/
def GrangerCausality (T K : ℕ) (Y : ℕ → ℕ → ℚ) (spec : ModelSpec)
    (causeIdx effectIdx : ℤ) (solU solR : Option (ℕ → ℚ))
    (cdf : ℚ → ℚ → ℚ → ℚ) : GOutcome :=
  if causeIdx < 0 ∨ (K : ℤ) ≤ causeIdx then .err .causeRange
  else if effectIdx < 0 ∨ (K : ℤ) ≤ effectIdx then .err .effectRange
  else if causeIdx = effectIdx then .err .sameIdx
  else if ((T : ℤ) - spec.Lags : ℤ) ≤ 0 then .panic
  else if ((detColsOf spec : ℤ) + spec.Lags * K : ℤ) ≤ 0 then .panic
  else
    match solU with
    | none => .err .solveUFail
    | some βU =>
        let rssU := grangerRssU T K Y spec βU effectIdx.toNat
        if ((detColsOf spec : ℤ) + spec.Lags * ((K : ℤ) - 1) : ℤ) ≤ 0 then .panic
        else
          match solR with
          | none => .err .solveRFail
          | some βR =>
              let rssR := grangerRssR T K Y spec βR causeIdx.toNat effectIdx.toNat
              let q : ℚ := ((spec.Lags : ℤ) : ℚ)
              let dof := grangerDof T K spec
              if dof ≤ 0 then .err .insufficientDof
              else
                let F := ((rssR - rssU) / q) / (rssU / dof)
                if q = 0 ∨ rssU = 0 then
                  { FStatistic := 0, PValue := 1, Lags := spec.Lags
                    Significant := decide ((1 : ℚ) < 1 / 20) } |> .ok
                else
                  let pv := clamp01 (1 - cdf q dof F)
                  { FStatistic := F, PValue := pv, Lags := spec.Lags
                    Significant := decide (pv < 1 / 20) } |> .ok

/-! ### Concrete instances used by witnesses and counterexamples -/

/-- Scalar AR(1) specification, no deterministic terms, no exogenous inputs. -/
def specP1 : ModelSpec := ⟨1, .DetNone, false⟩

/-- Scalar AR(2) specification, no deterministic terms. -/
def specP2 : ModelSpec := ⟨2, .DetNone, false⟩

/-- Scalar observation series `(2, 1)`. -/
def Yw1 : ℕ → ℕ → ℚ := fun t _ => if t = 0 then 2 else if t = 1 then 1 else 0

/-- All-zero observations. -/
def Yzero : ℕ → ℕ → ℚ := fun _ _ => 0

/-- Scalar observation series `(1, 1, 1, 0)`. -/
def Yc4 : ℕ → ℕ → ℚ := fun t _ => if t ≤ 2 then 1 else 0

/-- Literal-dimension copy of the design matrix arising from `Yc4` with
`specP2` (all-ones `2 × 2`). -/
def Xcex : Matrix (Fin 2) (Fin 2) ℚ := Matrix.of fun _ _ => 1

/-- Literal-dimension copy of the response matrix arising from `Yc4` with
`specP2`: `(1, 0)`. -/
def Ycex : Matrix (Fin 2) (Fin 1) ℚ := Matrix.of fun t _ => if (t : ℕ) = 0 then 1 else 0

/-- The minimum-norm least-squares solution of that rank-deficient system
(both lag coefficients `1/4`). -/
def Bcex : Matrix (Fin 2) (Fin 1) ℚ := Matrix.of fun _ _ => 1 / 4

/-- Scalar lag-coefficient matrix `[0.5]`. -/
def Ahalf : Matrix (Fin 1) (Fin 1) ℚ := Matrix.of fun _ _ => 1 / 2

/-- A fitted scalar AR(1) model `y_t = 0.5 y_{t-1}` without covariance. -/
def rfFc : RFVar 1 := ⟨specP1, [Ahalf], none, none⟩

/-- History `(1, 1/2, 1/4, 1/8, 1/16)`. -/
def Yhist : ℕ → ℕ → ℚ := fun t _ =>
  if t = 0 then 1 else if t = 1 then 1 / 2 else if t = 2 then 1 / 4
    else if t = 3 then 1 / 8 else if t = 4 then 1 / 16 else 0

/-- A fitted scalar AR(1) model with unit residual variance. -/
def rfIrf : RFVar 1 := ⟨specP1, [Ahalf], none, some 1⟩

/-- The same model with the zero matrix (not positive-definite) as residual
covariance. -/
def rfIrf0 : RFVar 1 := ⟨specP1, [Ahalf], none, some 0⟩

/-- Positive definiteness over `ℚ` (symmetric with positive quadratic
form), the exact-arithmetic idealization of the success condition of
gonum's `Cholesky.Factorize`. -/
def qPosDef {n : ℕ} (M : Matrix (Fin n) (Fin n) ℚ) : Prop :=
  Mᵀ = M ∧ ∀ x : Fin n → ℚ, x ≠ 0 → 0 < ∑ i, ∑ j, x i * M i j * x j

/-! ### Helper lemmas -/

/-- The computable determinant agrees with Mathlib's. -/
theorem detq_eq_det : ∀ {n : ℕ} (M : Matrix (Fin n) (Fin n) ℚ), detq M = M.det
  | 0, M => by simp [detq, Matrix.det_fin_zero]
  | n + 1, M => by
      rw [detq, Matrix.det_succ_row_zero]
      exact Finset.sum_congr rfl fun j _ => by rw [detq_eq_det]

/-- The computable adjugate agrees with Mathlib's. -/
theorem adjq_eq_adjugate {n : ℕ} (M : Matrix (Fin n) (Fin n) ℚ) :
    adjq M = M.adjugate := by
  ext i j
  simp [adjq, Matrix.adjugate_def, Matrix.cramer_apply, detq_eq_det,
    Matrix.updateColumn_transpose, Matrix.det_transpose]

/-- The computable inverse agrees with Mathlib's nonsingular inverse. -/
theorem qInvM_eq_inv {n : ℕ} (M : Matrix (Fin n) (Fin n) ℚ) : qInvM M = M⁻¹ := by
  rw [qInvM, detq_eq_det, adjq_eq_adjugate, Matrix.inv_def, Ring.inverse_eq_inv]

theorem xdetRow_length (spec : ModelSpec) (t : ℕ) :
    (xdetRow spec t).length = detColsOf spec := by
  unfold xdetRow detColsOf
  cases hasConstD spec.Deterministic <;> cases hasTrendD spec.Deterministic <;> simp

theorem flatMapRange_length (p K : ℕ) (f : ℕ → ℕ → ℚ) :
    ((List.range p).flatMap fun j => (List.range K).map fun k => f j k).length = p * K := by
  induction p with
  | zero => simp
  | succ n ih => rw [List.range_succ, List.flatMap_append]; simp [ih, Nat.succ_mul]

theorem flatMapRange_getD (p K : ℕ) (f : ℕ → ℕ → ℚ) {j k : ℕ}
    (hj : j < p) (hk : k < K) (d : ℚ) :
    ((List.range p).flatMap fun j' => (List.range K).map fun k' => f j' k').getD
      (j * K + k) d = f j k := by
  induction p with
  | zero => omega
  | succ n ih =>
      rw [List.range_succ, List.flatMap_append, List.getD_eq_getElem?_getD]
      have hlen : ((List.range n).flatMap fun j' =>
          (List.range K).map fun k' => f j' k').length = n * K :=
        flatMapRange_length n K f
      rcases Nat.lt_or_ge j n with h | h
      · have hlt : j * K + k < n * K := by
          calc j * K + k < j * K + K := by omega
            _ = (j + 1) * K := by ring
            _ ≤ n * K := Nat.mul_le_mul_right K h
        rw [List.getElem?_append_left (by rw [hlen]; exact hlt),
          ← List.getD_eq_getElem?_getD]
        exact ih h
      · have hj' : j = n := by omega
        subst hj'
        rw [List.getElem?_append_right (by rw [hlen]; omega), hlen]
        have hsub : j * K + k - j * K = k := by omega
        rw [hsub, List.flatMap_singleton, List.getElem?_map, List.getElem?_range hk]
        rfl

theorem xrow_length (Y : ℕ → ℕ → ℚ) (spec : ModelSpec) (K t : ℕ) :
    (xrow Y spec K t).length = mOf spec K := by
  rw [xrow, List.length_append, xdetRow_length, flatMapRange_length, mOf]

theorem xrow_getD_const (Y : ℕ → ℕ → ℚ) (spec : ModelSpec) (K t : ℕ)
    (hc : hasConstD spec.Deterministic = true) :
    (xrow Y spec K t).getD 0 0 = 1 := by
  unfold xrow xdetRow
  rw [hc]
  simp

theorem xrow_getD_trend (Y : ℕ → ℕ → ℚ) (spec : ModelSpec) (K t : ℕ)
    (ht : hasTrendD spec.Deterministic = true) :
    (xrow Y spec K t).getD (detTrendIdxOf spec) 0 = (((t : ℤ) + spec.Lags + 1 : ℤ) : ℚ) := by
  unfold xrow xdetRow detTrendIdxOf
  rw [ht]
  cases hc : hasConstD spec.Deterministic <;> simp

theorem xrow_getD_lag (Y : ℕ → ℕ → ℚ) (spec : ModelSpec) (K t : ℕ) {j k : ℕ}
    (hj1 : 1 ≤ j) (hj2 : j ≤ pOf spec) (hk : k < K) :
    (xrow Y spec K t).getD (detColsOf spec + (j - 1) * K + k) 0 =
      Y (t + pOf spec - j) k := by
  unfold xrow
  rw [List.getD_eq_getElem?_getD,
    List.getElem?_append_right (by rw [xdetRow_length]; omega), xdetRow_length,
    ← List.getD_eq_getElem?_getD]
  have hidx : detColsOf spec + (j - 1) * K + k - detColsOf spec = (j - 1) * K + k := by omega
  rw [hidx, flatMapRange_getD (pOf spec) K _ (by omega) hk]
  congr 1
  omega

theorem mget_Xmat (T K : ℕ) (Y : ℕ → ℕ → ℚ) (spec : ModelSpec) {t c : ℕ}
    (ht : t < tregOf T spec) (hc : c < mOf spec K) :
    mget (Xmat T K Y spec) t c = (xrow Y spec K t).getD c 0 := by
  simp [mget, Xmat, ht, hc]

theorem mget_Ymat (T K : ℕ) (Y : ℕ → ℕ → ℚ) (spec : ModelSpec) {t k : ℕ}
    (ht : t < tregOf T spec) (hk : k < K) :
    mget (Ymat T K Y spec) t k = Y (t + pOf spec) k := by
  simp [mget, Ymat, ht, hk]

theorem detCols_pos_of_const {spec : ModelSpec}
    (hc : hasConstD spec.Deterministic = true) : 0 < detColsOf spec := by
  simp [detColsOf, hc]

theorem detTrendIdx_lt_detCols {spec : ModelSpec}
    (ht : hasTrendD spec.Deterministic = true) :
    detTrendIdxOf spec < detColsOf spec := by
  unfold detTrendIdxOf detColsOf
  rw [ht]
  cases hasConstD spec.Deterministic <;> simp

theorem detCols_le_m (spec : ModelSpec) (K : ℕ) : detColsOf spec ≤ mOf spec K :=
  Nat.le_add_right _ _

theorem lagBlock_lt {p K detC j k : ℕ} (hj1 : 1 ≤ j) (hj2 : j ≤ p) (hk : k < K) :
    detC + (j - 1) * K + k < detC + p * K := by
  have h1 : (j - 1) * K + k < j * K := by
    have he : (j - 1) * K + K = j * K := by
      have : j - 1 + 1 = j := by omega
      calc (j - 1) * K + K = (j - 1 + 1) * K := by ring
        _ = j * K := by rw [this]
    omega
  have h2 : j * K ≤ p * K := Nat.mul_le_mul_right K hj2
  omega

theorem mkRF_A_length (T K : ℕ) (Y : ℕ → ℕ → ℚ) (spec : ModelSpec)
    (B : Matrix (Fin (mOf spec K)) (Fin K) ℚ) :
    (mkRF T K Y spec B).A.length = pOf spec := by
  simp [mkRF]

theorem mkRF_A_getD (T K : ℕ) (Y : ℕ → ℕ → ℚ) (spec : ModelSpec)
    (B : Matrix (Fin (mOf spec K)) (Fin K) ℚ) {j : ℕ} (hj : j < pOf spec) :
    (mkRF T K Y spec B).A.getD j 0 =
      Matrix.of fun (eq v : Fin K) => mget B (detColsOf spec + j * K + (v : ℕ)) (eq : ℕ) := by
  show ((List.range (pOf spec)).map fun j => Matrix.of fun (eq v : Fin K) =>
    mget B (detColsOf spec + j * K + (v : ℕ)) (eq : ℕ)).getD j 0 = _
  rw [List.getD_eq_getElem?_getD, List.getElem?_map, List.getElem?_range hj]
  rfl

theorem dfOf_pos {Treg m : ℕ} (h : 0 < Treg) : 0 < dfOf Treg m := by
  unfold dfOf
  split_ifs with hle
  · exact_mod_cast h
  · push_neg at hle
    exact_mod_cast hle

/-- Shared evaluation lemma: the normal-equation branch of `Estimate`. -/
theorem Estimate_ok_normal (T K : ℕ) (Y : ℕ → ℕ → ℚ) (spec : ModelSpec)
    (svd : Option (Matrix (Fin (mOf spec K)) (Fin K) ℚ))
    (hp : 0 < spec.Lags) (hT : spec.Lags < (T : ℤ)) (hx : spec.HasExogenous = false)
    (hdet : detq (xtxOf T K Y spec) ≠ 0) :
    Estimate T K Y spec svd = .ok (mkRF T K Y spec (Bols T K Y spec)) := by
  simp only [Estimate]
  rw [if_neg (by omega), if_neg (by omega), if_neg (by simp [hx]), if_pos hdet]

/-- Shared evaluation lemma: the SVD-fallback branch of `Estimate`. -/
theorem Estimate_ok_fallback (T K : ℕ) (Y : ℕ → ℕ → ℚ) (spec : ModelSpec)
    (sol : Matrix (Fin (mOf spec K)) (Fin K) ℚ)
    (hp : 0 < spec.Lags) (hT : spec.Lags < (T : ℤ)) (hx : spec.HasExogenous = false)
    (hdet : detq (xtxOf T K Y spec) = 0) :
    Estimate T K Y spec (some sol) =
      .ok (mkRF T K Y spec (if Xmat T K Y spec = 0 then 0 else sol)) := by
  simp only [Estimate]
  rw [if_neg (by omega), if_neg (by omega), if_neg (by simp [hx]),
    if_neg (by simp [hdet])]

theorem c4x_eq : Xmat 4 1 Yc4 specP2 = Xcex := by
  ext ⟨t, ht⟩ ⟨c, hc⟩
  have ht' : t < 2 := ht
  have hc' : c < 2 := hc
  interval_cases t <;> interval_cases c <;>
    simp [Xmat, Xcex, xrow, xdetRow, specP2, Yc4, detColsOf, pOf, hasConstD, hasTrendD,
      List.range_succ]

theorem c4y_eq : Ymat 4 1 Yc4 specP2 = Ycex := by
  ext ⟨t, ht⟩ ⟨c, hc⟩
  have ht' : t < 2 := ht
  interval_cases t <;> simp [Ymat, Ycex, specP2, Yc4, pOf]

theorem c4x_ne_zero : Xmat 4 1 Yc4 specP2 ≠ 0 := by
  rw [c4x_eq]
  intro h
  have h2 := congrFun (congrFun h 0) 0
  simp [Xcex] at h2

theorem c4_detq : detq (xtxOf 4 1 Yc4 specP2) = 0 := by
  have hm : mOf specP2 1 = 2 := rfl
  have ht : tregOf 4 specP2 = 2 := rfl
  simp only [xtxOf, c4x_eq, hm, ht]
  simp [detq, Xcex, Matrix.mul_apply, Fin.sum_univ_succ, Matrix.submatrix_apply]

theorem c4_estimate : Estimate 4 1 Yc4 specP2 (some Bcex) =
    .ok (mkRF 4 1 Yc4 specP2 Bcex) := by
  rw [Estimate_ok_fallback 4 1 Yc4 specP2 Bcex (by decide) (by decide) rfl c4_detq,
    if_neg c4x_ne_zero]

theorem c4_minnorm : IsMinNormLS Xcex Ycex Bcex := by
  constructor
  · intro B'
    simp [sumSq, Xcex, Ycex, Bcex, Matrix.mul_apply, Matrix.sub_apply, Fin.sum_univ_succ]
    nlinarith [sq_nonneg (B' 0 0 + B' 1 0 - 1 / 2)]
  · intro B' hB'
    simp [sumSq, Xcex, Ycex, Bcex, Matrix.mul_apply, Matrix.sub_apply,
      Fin.sum_univ_succ] at hB' ⊢
    nlinarith [sq_nonneg (B' 0 0 - B' 1 0), sq_nonneg (B' 0 0 + B' 1 0 - 1 / 2)]

theorem c4_sigma_entry : (Estimate 4 1 Yc4 specP2 (some Bcex)).toOption.map
    (fun rf => rf.SigmaU.map fun S => mget S 0 0) = some (some (1 / 4)) := by
  rw [c4_estimate]
  have hm : mOf specP2 1 = 2 := rfl
  have ht : tregOf 4 specP2 = 2 := rfl
  simp only [mkRF, SigmaOf, c4x_eq, c4y_eq, hm, ht, Except.toOption]
  simp [mget, dfOf, ht, hm, Xcex, Ycex, Bcex, Matrix.mul_apply, Matrix.sub_apply,
    Finset.sum_fin_eq_sum_range, Finset.sum_range_succ]
  norm_num

theorem c4_claim_value : mget ((Ycex - Xcex * Bcex)ᵀ * (Ycex - Xcex * Bcex)) 0 0 /
    ((max ((tregOf 4 specP2 : ℤ) - (mOf specP2 1 : ℤ)) 1 : ℤ) : ℚ) = 1 / 2 := by
  simp [mget, Xcex, Ycex, Bcex, tregOf, mOf, specP2, detColsOf, pOf, hasConstD,
    hasTrendD, Matrix.mul_apply, Matrix.sub_apply, Fin.sum_univ_succ]
  norm_num

theorem sumSq_nonneg {r c : ℕ} (M : Matrix (Fin r) (Fin c) ℚ) : 0 ≤ sumSq M :=
  Finset.sum_nonneg fun _ _ => Finset.sum_nonneg fun _ _ => sq_nonneg _

theorem eq_zero_of_sumSq_eq_zero {r c : ℕ} {M : Matrix (Fin r) (Fin c) ℚ}
    (h : sumSq M = 0) : M = 0 := by
  ext i j
  have h1 := (Finset.sum_eq_zero_iff_of_nonneg
    (fun i _ => Finset.sum_nonneg fun j _ => sq_nonneg (M i j))).1 h i (Finset.mem_univ i)
  have h2 := (Finset.sum_eq_zero_iff_of_nonneg
    (fun j _ => sq_nonneg (M i j))).1 h1 j (Finset.mem_univ j)
  simpa using (pow_eq_zero_iff two_ne_zero).mp h2

theorem IsMinNormLS_zero_design {n m k : ℕ} (Y : Matrix (Fin n) (Fin k) ℚ) :
    IsMinNormLS (0 : Matrix (Fin n) (Fin m) ℚ) Y 0 := by
  constructor
  · intro B'
    simp [Matrix.zero_mul]
  · intro B' _
    have : sumSq (0 : Matrix (Fin m) (Fin k) ℚ) = 0 := by simp [sumSq]
    rw [this]
    exact sumSq_nonneg B'

theorem IsMinNormLS_zero_response {n m k : ℕ} (X : Matrix (Fin n) (Fin m) ℚ)
    (B : Matrix (Fin m) (Fin k) ℚ) (h : IsMinNormLS X 0 B) : B = 0 := by
  obtain ⟨hmin, hnorm⟩ := h
  have h0 : sumSq ((0 : Matrix (Fin n) (Fin k) ℚ) -
      X * (0 : Matrix (Fin m) (Fin k) ℚ)) = 0 := by
    simp [sumSq, Matrix.mul_zero]
  have hres : sumSq ((0 : Matrix (Fin n) (Fin k) ℚ) - X * B) = 0 :=
    le_antisymm (h0 ▸ hmin 0) (sumSq_nonneg _)
  have h3 := hnorm 0 (h0.trans hres.symm)
  have h4 : sumSq B = 0 := le_antisymm (by simpa [sumSq] using h3) (sumSq_nonneg _)
  exact eq_zero_of_sumSq_eq_zero h4

theorem Ymat_zero (T K : ℕ) (Y : ℕ → ℕ → ℚ) (spec : ModelSpec)
    (h : ∀ t k', t < T → k' < K → Y t k' = 0) : Ymat T K Y spec = 0 := by
  ext ⟨t, ht⟩ ⟨k, hk⟩
  have htp : t + pOf spec < T := by
    unfold tregOf at ht
    omega
  simp [Ymat, h _ _ htp hk]

theorem mget_zero {r c : ℕ} (i j : ℕ) : mget (0 : Matrix (Fin r) (Fin c) ℚ) i j = 0 := by
  unfold mget
  split <;> simp

theorem mkRF_A_zero (T K : ℕ) (Y : ℕ → ℕ → ℚ) (spec : ModelSpec) {j : ℕ}
    (hj : j < pOf spec) : (mkRF T K Y spec 0).A.getD j 0 = 0 := by
  rw [mkRF_A_getD T K Y spec 0 hj]
  ext eq v
  simp [mget_zero]

theorem getD_drop {α : Type} [Inhabited α] (l : List α) (n s : ℕ) (d : α) :
    (l.drop n).getD s d = l.getD (n + s) d := by
  rw [List.getD_eq_getElem?_getD, List.getElem?_drop, List.getD_eq_getElem?_getD]

theorem fcBuf_length {K : ℕ} (rf : RFVar K) (Thist : ℕ) (yHist : ℕ → ℕ → ℚ) (s : ℕ) :
    (fcBuf rf Thist yHist s).length = pOf rf.Model + s := by
  induction s with
  | zero => simp [fcBuf]
  | succ n ih =>
      show (fcBuf rf Thist yHist n ++ [_]).length = _
      rw [List.length_append, ih]
      simp [Nat.add_assoc]

theorem fcBuf_getD_le {K : ℕ} (rf : RFVar K) (Thist : ℕ) (yHist : ℕ → ℕ → ℚ)
    {r s s' : ℕ} (hss : s ≤ s') (hr : r < pOf rf.Model + s) :
    (fcBuf rf Thist yHist s').getD r 0 = (fcBuf rf Thist yHist s).getD r 0 := by
  induction s' with
  | zero =>
      have : s = 0 := by omega
      rw [this]
  | succ n ih =>
      rcases Nat.lt_or_ge s (n + 1) with h | h
      · have step : (fcBuf rf Thist yHist (n + 1)).getD r 0 =
            (fcBuf rf Thist yHist n).getD r 0 := by
          show (fcBuf rf Thist yHist n ++ [_]).getD r 0 = _
          rw [List.getD_eq_getElem?_getD,
            List.getElem?_append_left (by rw [fcBuf_length]; omega),
            ← List.getD_eq_getElem?_getD]
        rw [step, ih (by omega)]
      · have : s = n + 1 := by omega
        rw [this]

theorem fcBuf_seed {K : ℕ} (rf : RFVar K) (Thist : ℕ) (yHist : ℕ → ℕ → ℚ)
    (s : ℕ) {i : ℕ} (hi : i < pOf rf.Model) :
    (fcBuf rf Thist yHist s).getD i 0 =
      fun (k : Fin K) => yHist (Thist - pOf rf.Model + i) (k : ℕ) := by
  rw [fcBuf_getD_le rf Thist yHist (Nat.zero_le s) (by omega)]
  show ((List.range (pOf rf.Model)).map _).getD i 0 = _
  rw [List.getD_eq_getElem?_getD, List.getElem?_map, List.getElem?_range hi]
  rfl

theorem fcBuf_row {K : ℕ} (rf : RFVar K) (Thist : ℕ) (yHist : ℕ → ℕ → ℚ) (s : ℕ) :
    (fcBuf rf Thist yHist (s + 1)).getD (pOf rf.Model + s) 0 = fun (eq : Fin K) =>
      detTermF rf ((Thist + s + 1 : ℕ) : ℚ) (eq : ℕ) +
      ∑ lag ∈ Finset.Icc 1 (pOf rf.Model), ∑ j : Fin K,
        (rf.A.getD (lag - 1) 0) eq j *
          (fcBuf rf Thist yHist s).getD (pOf rf.Model + s - lag) 0 j := by
  show (fcBuf rf Thist yHist s ++ [_]).getD (pOf rf.Model + s) 0 = _
  rw [List.getD_eq_getElem?_getD,
    List.getElem?_append_right (by rw [fcBuf_length]), fcBuf_length]
  simp

theorem fcBuf_row_at {K : ℕ} (rf : RFVar K) (Thist : ℕ) (yHist : ℕ → ℕ → ℚ)
    {s n : ℕ} (hsn : s < n) :
    (fcBuf rf Thist yHist n).getD (pOf rf.Model + s) 0 = fun (eq : Fin K) =>
      detTermF rf ((Thist + s + 1 : ℕ) : ℚ) (eq : ℕ) +
      ∑ lag ∈ Finset.Icc 1 (pOf rf.Model), ∑ j : Fin K,
        (rf.A.getD (lag - 1) 0) eq j *
          (fcBuf rf Thist yHist n).getD (pOf rf.Model + s - lag) 0 j := by
  rw [fcBuf_getD_le rf Thist yHist (show s + 1 ≤ n by omega) (by omega), fcBuf_row]
  funext eq
  congr 1
  refine Finset.sum_congr rfl fun lag hlag => Finset.sum_congr rfl fun j _ => ?_
  have hlag1 : 1 ≤ lag := (Finset.mem_Icc.mp hlag).1
  have hlag2 : lag ≤ pOf rf.Model := (Finset.mem_Icc.mp hlag).2
  congr 1
  have hb : pOf rf.Model + s - lag < pOf rf.Model + s := by omega
  exact congrFun (fcBuf_getD_le rf Thist yHist (Nat.le_of_lt hsn) hb).symm j

theorem getD_map_range {α : Type} [Inhabited α] (f : ℕ → α) {k n : ℕ} (hk : k < n)
    (d : α) : ((List.range n).map f).getD k d = f k := by
  rw [List.getD_eq_getElem?_getD, List.getElem?_map, List.getElem?_range hk]
  rfl

theorem psiList_length {K : ℕ} (A : List (Matrix (Fin K) (Fin K) ℚ)) (p h : ℕ) :
    (psiList A p h).length = h + 1 := by
  induction h with
  | zero => rfl
  | succ n ih =>
      show (psiList A p n ++ [_]).length = _
      rw [List.length_append, ih]
      rfl

theorem psiList_getD_le {K : ℕ} (A : List (Matrix (Fin K) (Fin K) ℚ)) (p : ℕ)
    {k h h' : ℕ} (hh : h ≤ h') (hk : k ≤ h) :
    (psiList A p h').getD k 0 = (psiList A p h).getD k 0 := by
  induction h' with
  | zero =>
      have : h = 0 := by omega
      rw [this]
  | succ n ih =>
      rcases Nat.lt_or_ge h (n + 1) with hlt | hge
      · have step : (psiList A p (n + 1)).getD k 0 = (psiList A p n).getD k 0 := by
          show (psiList A p n ++ [_]).getD k 0 = _
          rw [List.getD_eq_getElem?_getD,
            List.getElem?_append_left (by rw [psiList_length]; omega),
            ← List.getD_eq_getElem?_getD]
        rw [step, ih (by omega)]
      · have : h = n + 1 := by omega
        rw [this]

theorem psi_zero {K : ℕ} (A : List (Matrix (Fin K) (Fin K) ℚ)) (p : ℕ) :
    psi A p 0 = 1 := rfl

theorem psi_succ {K : ℕ} (A : List (Matrix (Fin K) (Fin K) ℚ)) (p h : ℕ) :
    psi A p (h + 1) = ∑ j ∈ Finset.Icc 1 (min (h + 1) p),
      A.getD (j - 1) 0 * psi A p (h + 1 - j) := by
  unfold psi
  show (psiList A p h ++ [_]).getD (h + 1) 0 = _
  rw [List.getD_eq_getElem?_getD,
    List.getElem?_append_right (by rw [psiList_length]), psiList_length]
  simp only [Nat.sub_self, List.getElem?_cons_zero, Option.getD_some]
  refine Finset.sum_congr rfl fun j hj => ?_
  have hj1 : 1 ≤ j := (Finset.mem_Icc.mp hj).1
  congr 1
  exact psiList_getD_le A p (by omega) (by omega)

theorem psi_scalar (a : ℚ) (h : ℕ) :
    psi [(Matrix.of fun _ _ => a : Matrix (Fin 1) (Fin 1) ℚ)] 1 h =
      Matrix.of fun _ _ => a ^ h := by
  induction h with
  | zero =>
      rw [psi_zero]
      ext i j
      fin_cases i
      fin_cases j
      simp [Matrix.one_apply]
  | succ n ih =>
      rw [psi_succ, show min (n + 1) 1 = 1 by omega, Finset.Icc_self,
        Finset.sum_singleton]
      simp only [Nat.add_sub_cancel, Nat.sub_self, List.getD_cons_zero, ih]
      ext i j
      fin_cases i
      fin_cases j
      simp [Matrix.mul_apply]
      ring

theorem c6_not_posdef : ¬ qPosDef (0 : Matrix (Fin 1) (Fin 1) ℚ) := by
  rintro ⟨-, h⟩
  have h1 := h (fun _ => 1) (by
    intro hx
    have h2 := congrFun hx 0
    simp at h2)
  simp at h1

theorem c6_same_output : IRF rfIrf0 3 0 none = IRF rfIrf 3 0 (some 1) := by
  unfold IRF
  have hsh : shockOf rfIrf0.SigmaU none (0 : ℤ).toNat =
      shockOf rfIrf.SigmaU (some 1) (0 : ℤ).toNat := by
    funext i
    fin_cases i
    simp [shockOf, rfIrf0, rfIrf, unitShock, mget, Matrix.one_apply]
  simp only [rfIrf0, rfIrf] at hsh ⊢
  rw [hsh]

theorem c6_value : IRF rfIrf0 3 0 none =
    .ok [fun _ => 1, fun _ => (1 : ℚ) / 2, fun _ => 1 / 4] := by
  have h1 : ¬(rfIrf0.A.length = 0) := by simp [rfIrf0]
  have h3 : ¬(rfIrf0.Model.Lags ≤ 0) := by norm_num [rfIrf0, specP1]
  unfold IRF
  rw [if_neg h1, if_neg (by norm_num), if_neg h3, if_neg (by norm_num)]
  congr 1
  have key : ∀ h : ℕ, (fun i => ∑ j : Fin 1, psi rfIrf0.A (pOf rfIrf0.Model) h i j *
      shockOf rfIrf0.SigmaU none (Int.toNat 0) j) = fun _ => ((1 : ℚ) / 2) ^ h := by
    intro h
    funext i
    rw [Fin.sum_univ_one]
    have hA : rfIrf0.A = [(Matrix.of fun _ _ => (1 : ℚ) / 2 : Matrix (Fin 1) (Fin 1) ℚ)] := rfl
    have hp1 : pOf rfIrf0.Model = 1 := rfl
    rw [hA, hp1, psi_scalar]
    fin_cases i
    simp [rfIrf0, shockOf, unitShock]
  simp only [show Int.toNat 3 = 3 from rfl, List.range_succ, List.range_zero,
    List.nil_append, List.map_append, List.map_cons, List.map_nil, key]
  norm_num

theorem rss_nonneg (Treg mcols : ℕ) (rowf : ℕ → List ℚ) (β : ℕ → ℚ) (y : ℕ → ℚ) :
    0 ≤ rss Treg mcols rowf β y :=
  Finset.sum_nonneg fun _ _ => sq_nonneg _

theorem clamp01_bounds (x : ℚ) : 0 ≤ clamp01 x ∧ clamp01 x ≤ 1 := by
  unfold clamp01
  split_ifs <;> constructor <;> linarith

theorem rss_zero_series (n m : ℕ) (rows : ℕ → List ℚ) (e : ℕ) :
    rss n m rows (fun _ => 0) (grangerYE Yzero specP1 e) = 0 := by
  simp [rss, grangerYE, Yzero]

/-! ### Claim theorems -/

/-- C1: under the estimation preconditions, when `X'X` is invertible
`Estimate` succeeds and returns the model assembled from
`B = (X'X)⁻¹ X' Yreg`, where `Yreg`'s row `t` is `observations[t+p, :]`,
`X`'s row `t` has an optional constant column `1.0`, an optional trend
column `t+p+1`, and `p` lag blocks with the lag-`j` block equal to
`observations[t+p-j, :]`; the lag matrices satisfy
`A_j[eq][var] = B[detCols+(j-1)K+var][eq]` and the deterministic
coefficients are the first `detCols` rows of `B` transposed. -/
theorem Estimate_normal_equations (T K : ℕ) (Y : ℕ → ℕ → ℚ) (spec : ModelSpec)
    (svd : Option (Matrix (Fin (mOf spec K)) (Fin K) ℚ))
    (hp : 0 < spec.Lags) (hT : spec.Lags < (T : ℤ)) (hx : spec.HasExogenous = false)
    (hdet : detq (xtxOf T K Y spec) ≠ 0) :
    Estimate T K Y spec svd = .ok (mkRF T K Y spec (Bols T K Y spec)) ∧
    Bols T K Y spec = (xtxOf T K Y spec)⁻¹ * ((Xmat T K Y spec)ᵀ * Ymat T K Y spec) ∧
    (∀ t k, t < tregOf T spec → k < K →
      mget (Ymat T K Y spec) t k = Y (t + pOf spec) k) ∧
    (∀ t, t < tregOf T spec → hasConstD spec.Deterministic = true →
      mget (Xmat T K Y spec) t 0 = 1) ∧
    (∀ t, t < tregOf T spec → hasTrendD spec.Deterministic = true →
      mget (Xmat T K Y spec) t (detTrendIdxOf spec) = ((t + pOf spec + 1 : ℕ) : ℚ)) ∧
    (∀ t j k, t < tregOf T spec → 1 ≤ j → j ≤ pOf spec → k < K →
      mget (Xmat T K Y spec) t (detColsOf spec + (j - 1) * K + k) =
        Y (t + pOf spec - j) k) ∧
    (mkRF T K Y spec (Bols T K Y spec)).A.length = pOf spec ∧
    (∀ j, 1 ≤ j → j ≤ pOf spec → ∀ eq v : Fin K,
      ((mkRF T K Y spec (Bols T K Y spec)).A.getD (j - 1) 0) eq v =
        mget (Bols T K Y spec) (detColsOf spec + (j - 1) * K + (v : ℕ)) (eq : ℕ)) ∧
    (0 < detColsOf spec → ∃ Cf, (mkRF T K Y spec (Bols T K Y spec)).C = some Cf ∧
      ∀ eq d, eq < K → d < detColsOf spec →
        Cf eq d = mget (Bols T K Y spec) d eq) := by
  refine ⟨?_, ?_, ?_, ?_, ?_, ?_, ?_, ?_, ?_⟩
  · exact Estimate_ok_normal T K Y spec svd hp hT hx hdet
  · rw [Bols, qInvM_eq_inv]
  · exact fun t k ht hk => mget_Ymat T K Y spec ht hk
  · intro t ht hc
    rw [mget_Xmat T K Y spec ht
      (lt_of_lt_of_le (detCols_pos_of_const hc) (detCols_le_m spec K))]
    exact xrow_getD_const Y spec K t hc
  · intro t ht htr
    rw [mget_Xmat T K Y spec ht
      (lt_of_lt_of_le (detTrendIdx_lt_detCols htr) (detCols_le_m spec K))]
    rw [xrow_getD_trend Y spec K t htr]
    have hcast : ((t : ℤ) + spec.Lags + 1 : ℤ) = ((t + pOf spec + 1 : ℕ) : ℤ) := by
      have : (pOf spec : ℤ) = spec.Lags := Int.toNat_of_nonneg (le_of_lt hp)
      push_cast
      omega
    rw [hcast]
    push_cast
    ring
  · intro t j k ht hj1 hj2 hk
    rw [mget_Xmat T K Y spec ht (lagBlock_lt hj1 hj2 hk)]
    exact xrow_getD_lag Y spec K t hj1 hj2 hk
  · exact mkRF_A_length T K Y spec _
  · intro j hj1 hj2 eq v
    rw [mkRF_A_getD T K Y spec _ (by omega : j - 1 < pOf spec)]
    rfl
  · intro hdc
    refine ⟨fun eq d => if eq < K ∧ d < detColsOf spec
        then mget (Bols T K Y spec) d eq else 0, ?_, fun eq d heq hd => ?_⟩
    · rw [mkRF]
      simp [hdc]
    · simp [heq, hd]

/-- Witness for C1 at the scalar instance `T = 2`, `y = (2, 1)`, `p = 1`:
the preconditions and the invertibility hypothesis hold, and `Estimate`
returns the model assembled from the normal-equation coefficients. -/
theorem Estimate_normal_equations_witness :
    detq (xtxOf 2 1 Yw1 specP1) ≠ 0 ∧
    Estimate 2 1 Yw1 specP1 (some 0) =
      .ok (mkRF 2 1 Yw1 specP1 (Bols 2 1 Yw1 specP1)) := by
  have hdet : detq (xtxOf 2 1 Yw1 specP1) ≠ 0 := by
    simp [detq, xtxOf, Xmat, xrow, xdetRow, specP1, mOf, detColsOf, pOf, hasConstD,
      hasTrendD, Yw1, tregOf, Matrix.mul_apply, Fin.sum_univ_succ, List.range_succ]
  exact ⟨hdet, (Estimate_normal_equations 2 1 Yw1 specP1 (some 0)
    (by decide) (by decide) rfl hdet).1⟩

/-- C8: `Estimate` returns an error exactly when a precondition fails
(`lagOrder ≤ 0`, exogenous regressors requested, or `T ≤ lagOrder`) or,
all preconditions holding, when the design is singular and the external
SVD factorization itself fails. -/
theorem Estimate_error_iff (T K : ℕ) (Y : ℕ → ℕ → ℚ) (spec : ModelSpec)
    (svd : Option (Matrix (Fin (mOf spec K)) (Fin K) ℚ)) :
    (∃ e, Estimate T K Y spec svd = .error e) ↔
      spec.Lags ≤ 0 ∨ spec.HasExogenous = true ∨ (T : ℤ) ≤ spec.Lags ∨
        (detq (xtxOf T K Y spec) = 0 ∧ svd = none) := by
  unfold Estimate
  by_cases h1 : spec.Lags ≤ 0
  · rw [if_pos h1]
    exact iff_of_true ⟨_, rfl⟩ (Or.inl h1)
  rw [if_neg h1]
  by_cases h2 : (T : ℤ) ≤ spec.Lags
  · rw [if_pos h2]
    exact iff_of_true ⟨_, rfl⟩ (Or.inr (Or.inr (Or.inl h2)))
  rw [if_neg h2]
  by_cases h3 : spec.HasExogenous = true
  · rw [if_pos h3]
    exact iff_of_true ⟨_, rfl⟩ (Or.inr (Or.inl h3))
  rw [if_neg h3]
  by_cases h4 : detq (xtxOf T K Y spec) ≠ 0
  · rw [if_pos h4]
    constructor
    · rintro ⟨e, he⟩
      simp at he
    · rintro (h | h | h | ⟨hd, hs⟩)
      · exact absurd h h1
      · exact absurd h h3
      · exact absurd h h2
      · exact absurd hd h4
  · rw [if_neg h4]
    cases svd with
    | none =>
        exact iff_of_true ⟨_, rfl⟩ (Or.inr (Or.inr (Or.inr ⟨not_not.mp h4, rfl⟩)))
    | some sol =>
        constructor
        · rintro ⟨e, he⟩
          simp at he
        · rintro (h | h | h | ⟨hd, hs⟩)
          · exact absurd h h1
          · exact absurd h h3
          · exact absurd h h2
          · cases hs

/-- C4 (corrected): every successful `Estimate` returns
`SigmaU = (U'U)/df` with `U = Yreg - X·B` for the coefficient matrix `B`
the call produced, where `df = Treg - m` when that is positive and `Treg`
otherwise (not `max(Treg-m, 1)` as claimed); the divisor is always
positive. -/
theorem Estimate_residual_covariance (T K : ℕ) (Y : ℕ → ℕ → ℚ) (spec : ModelSpec)
    (svd : Option (Matrix (Fin (mOf spec K)) (Fin K) ℚ)) (rf : RFVar K)
    (h : Estimate T K Y spec svd = .ok rf) :
    ∃ B, rf = mkRF T K Y spec B ∧
      rf.SigmaU = some (Matrix.of fun i j =>
        (((Ymat T K Y spec - Xmat T K Y spec * B)ᵀ *
          (Ymat T K Y spec - Xmat T K Y spec * B)) i j) /
            dfOf (tregOf T spec) (mOf spec K)) ∧
      dfOf (tregOf T spec) (mOf spec K) =
        (if ((tregOf T spec : ℤ) - mOf spec K : ℤ) ≤ 0 then ((tregOf T spec : ℕ) : ℚ)
          else (((tregOf T spec : ℤ) - mOf spec K : ℤ) : ℚ)) ∧
      0 < dfOf (tregOf T spec) (mOf spec K) := by
  unfold Estimate at h
  by_cases h1 : spec.Lags ≤ 0
  · rw [if_pos h1] at h
    simp at h
  rw [if_neg h1] at h
  by_cases h2 : (T : ℤ) ≤ spec.Lags
  · rw [if_pos h2] at h
    simp at h
  rw [if_neg h2] at h
  by_cases h3 : spec.HasExogenous = true
  · rw [if_pos h3] at h
    simp at h
  rw [if_neg h3] at h
  have hTreg : 0 < tregOf T spec := by
    unfold tregOf pOf
    omega
  by_cases h4 : detq (xtxOf T K Y spec) ≠ 0
  · rw [if_pos h4] at h
    injection h with hh
    subst hh
    exact ⟨Bols T K Y spec, rfl, rfl, rfl, dfOf_pos hTreg⟩
  · rw [if_neg h4] at h
    cases svd with
    | none => simp at h
    | some sol =>
        injection h with hh
        subst hh
        exact ⟨_, rfl, rfl, rfl, dfOf_pos hTreg⟩

/-- Counterexample for C4 as stated: at `T = 4`, `y = (1,1,1,0)`, `p = 2`,
no deterministic terms, the design is the singular all-ones matrix, the
external SVD returns the (verified) minimum-norm least-squares solution
`B = (1/4, 1/4)`, and the returned covariance entry is
`(U'U)/Treg = 1/4` — not `(U'U)/max(Treg − (detCols + p·K), 1) = 1/2` as
the claimed formula `df = max(Treg − (detCols + p·K), 1)` demands. -/
theorem Estimate_residual_covariance_cex :
    Xmat 4 1 Yc4 specP2 = Xcex ∧ Ymat 4 1 Yc4 specP2 = Ycex ∧
    IsMinNormLS Xcex Ycex Bcex ∧
    (Estimate 4 1 Yc4 specP2 (some Bcex)).toOption.map
      (fun rf => rf.SigmaU.map fun S => mget S 0 0) = some (some (1 / 4)) ∧
    mget ((Ycex - Xcex * Bcex)ᵀ * (Ycex - Xcex * Bcex)) 0 0 /
      ((max ((tregOf 4 specP2 : ℤ) - (mOf specP2 1 : ℤ)) 1 : ℤ) : ℚ) = 1 / 2 ∧
    (1 / 4 : ℚ) ≠ 1 / 2 :=
  ⟨c4x_eq, c4y_eq, c4_minnorm, c4_sigma_entry, c4_claim_value, by norm_num⟩

/-- Witness for (amended) C4 at the invertible-design instance of C1: the
estimate succeeds and its covariance satisfies the division rule. -/
theorem Estimate_residual_covariance_witness :
    Estimate 2 1 Yw1 specP1 (some 0) =
      .ok (mkRF 2 1 Yw1 specP1 (Bols 2 1 Yw1 specP1)) ∧
    ∃ B, mkRF 2 1 Yw1 specP1 (Bols 2 1 Yw1 specP1) = mkRF 2 1 Yw1 specP1 B ∧
      (mkRF 2 1 Yw1 specP1 (Bols 2 1 Yw1 specP1)).SigmaU =
        some (Matrix.of fun i j =>
          (((Ymat 2 1 Yw1 specP1 - Xmat 2 1 Yw1 specP1 * B)ᵀ *
            (Ymat 2 1 Yw1 specP1 - Xmat 2 1 Yw1 specP1 * B)) i j) /
              dfOf (tregOf 2 specP1) (mOf specP1 1)) ∧
      dfOf (tregOf 2 specP1) (mOf specP1 1) =
        (if ((tregOf 2 specP1 : ℤ) - mOf specP1 1 : ℤ) ≤ 0
          then ((tregOf 2 specP1 : ℕ) : ℚ)
          else (((tregOf 2 specP1 : ℤ) - mOf specP1 1 : ℤ) : ℚ)) ∧
      0 < dfOf (tregOf 2 specP1) (mOf specP1 1) := by
  have hdet : detq (xtxOf 2 1 Yw1 specP1) ≠ 0 := by
    simp [detq, xtxOf, Xmat, xrow, xdetRow, specP1, mOf, detColsOf, pOf, hasConstD,
      hasTrendD, Yw1, tregOf, Matrix.mul_apply, Fin.sum_univ_succ, List.range_succ]
  have h := Estimate_ok_normal 2 1 Yw1 specP1 (some 0) (by decide) (by decide) rfl hdet
  exact ⟨h, Estimate_residual_covariance 2 1 Yw1 specP1 (some 0) _ h⟩

/-- C7: on a singular design, `Estimate` models the SVD fallback: when the
effective rank is zero (in exact arithmetic, `X = 0`) the coefficient
matrix is the zero matrix — which is itself the minimum-norm least-squares
solution; when the rank is nonzero the returned coefficient matrix is the
external solver's minimum-norm least-squares solution; and whenever all
input observations are zero, every returned lag matrix `A_j` is zero,
whatever branch was taken. -/
theorem Estimate_svd_minnorm (T K : ℕ) (Y : ℕ → ℕ → ℚ) (spec : ModelSpec)
    (hp : 0 < spec.Lags) (hT : spec.Lags < (T : ℤ)) (hx : spec.HasExogenous = false) :
    (detq (xtxOf T K Y spec) = 0 → Xmat T K Y spec = 0 →
      ∀ sol, Estimate T K Y spec (some sol) = .ok (mkRF T K Y spec 0) ∧
        IsMinNormLS (Xmat T K Y spec) (Ymat T K Y spec) 0) ∧
    (detq (xtxOf T K Y spec) = 0 → Xmat T K Y spec ≠ 0 →
      ∀ sol, IsMinNormLS (Xmat T K Y spec) (Ymat T K Y spec) sol →
        Estimate T K Y spec (some sol) = .ok (mkRF T K Y spec sol)) ∧
    ((∀ t k', t < T → k' < K → Y t k' = 0) →
      ∀ sol, IsMinNormLS (Xmat T K Y spec) (Ymat T K Y spec) sol →
        ∃ rf, Estimate T K Y spec (some sol) = .ok rf ∧
          ∀ j, j < pOf spec → rf.A.getD j 0 = 0) := by
  refine ⟨?_, ?_, ?_⟩
  · intro hdet hX sol
    refine ⟨?_, ?_⟩
    · rw [Estimate_ok_fallback T K Y spec sol hp hT hx hdet, if_pos hX]
    · rw [hX]
      exact IsMinNormLS_zero_design _
  · intro hdet hX sol _
    rw [Estimate_ok_fallback T K Y spec sol hp hT hx hdet, if_neg hX]
  · intro hzero sol hsol
    have hY : Ymat T K Y spec = 0 := Ymat_zero T K Y spec hzero
    by_cases hdet : detq (xtxOf T K Y spec) ≠ 0
    · refine ⟨_, Estimate_ok_normal T K Y spec (some sol) hp hT hx hdet, ?_⟩
      intro j hj
      have hB : Bols T K Y spec = 0 := by
        rw [Bols, hY, Matrix.mul_zero, Matrix.mul_zero]
      rw [hB]
      exact mkRF_A_zero T K Y spec hj
    · push_neg at hdet
      by_cases hX : Xmat T K Y spec = 0
      · refine ⟨_, by rw [Estimate_ok_fallback T K Y spec sol hp hT hx hdet, if_pos hX], ?_⟩
        intro j hj
        exact mkRF_A_zero T K Y spec hj
      · refine ⟨_, by rw [Estimate_ok_fallback T K Y spec sol hp hT hx hdet, if_neg hX], ?_⟩
        intro j hj
        rw [hY] at hsol
        rw [IsMinNormLS_zero_response _ _ hsol]
        exact mkRF_A_zero T K Y spec hj

/-- Witness for C7 at the all-zero scalar instance `T = 2`, `p = 1`: the
design is exactly zero, the fallback returns the zero model, and every lag
matrix of the returned model is zero. -/
theorem Estimate_svd_minnorm_witness :
    detq (xtxOf 2 1 Yzero specP1) = 0 ∧ Xmat 2 1 Yzero specP1 = 0 ∧
    (Estimate 2 1 Yzero specP1 (some 0) = .ok (mkRF 2 1 Yzero specP1 0) ∧
      IsMinNormLS (Xmat 2 1 Yzero specP1) (Ymat 2 1 Yzero specP1) 0) ∧
    (∃ rf, Estimate 2 1 Yzero specP1 (some 0) = .ok rf ∧
      ∀ j, j < pOf specP1 → rf.A.getD j 0 = 0) := by
  have hX : Xmat 2 1 Yzero specP1 = 0 := by
    ext ⟨t, ht⟩ ⟨c, hc⟩
    have ht' : t < 1 := ht
    have hc' : c < 1 := hc
    interval_cases t <;> interval_cases c <;>
      simp [Xmat, xrow, xdetRow, specP1, Yzero, detColsOf, pOf, hasConstD, hasTrendD,
        List.range_succ]
  have hdet : detq (xtxOf 2 1 Yzero specP1) = 0 := by
    have hm : mOf specP1 1 = 1 := rfl
    simp only [xtxOf, hX, hm]
    simp [detq, Matrix.mul_apply]
  obtain ⟨ha, hb, hcc⟩ := Estimate_svd_minnorm 2 1 Yzero specP1
    (by decide) (by decide) rfl
  refine ⟨hdet, hX, ha hdet hX 0, hcc (fun _ _ _ _ => rfl) 0 ?_⟩
  exact (ha hdet hX 0).2

/-- C3: for a fitted model with `p > 0` lag matrices, `T ≥ p` history rows
and `steps > 0`, `Forecast` succeeds and returns exactly the last `steps`
rows of the recursive buffer: the buffer is seeded with the last `p` rows
of the history, and row `p+s` of the buffer equals the deterministic term
at absolute time `T + s + 1` plus `Σ_{lag=1..p} A_lag[eq]·buffer[p+s-lag]`,
so each step's forecast feeds subsequent steps. -/
theorem Forecast_recursive {K : ℕ} (rf : RFVar K) (Thist : ℕ) (yHist : ℕ → ℕ → ℚ)
    (steps : ℤ) (hA : rf.A.length = pOf rf.Model) (hp : 0 < rf.Model.Lags)
    (hs : 0 < steps) (hT : rf.Model.Lags ≤ (Thist : ℤ)) :
    Forecast rf Thist yHist steps =
      .ok ((fcBuf rf Thist yHist steps.toNat).drop (pOf rf.Model)) ∧
    ((fcBuf rf Thist yHist steps.toNat).drop (pOf rf.Model)).length = steps.toNat ∧
    (∀ i, i < pOf rf.Model → (fcBuf rf Thist yHist steps.toNat).getD i 0 =
      fun (k : Fin K) => yHist (Thist - pOf rf.Model + i) (k : ℕ)) ∧
    (∀ s, s < steps.toNat →
      ((fcBuf rf Thist yHist steps.toNat).drop (pOf rf.Model)).getD s 0 =
        (fcBuf rf Thist yHist steps.toNat).getD (pOf rf.Model + s) 0 ∧
      (fcBuf rf Thist yHist steps.toNat).getD (pOf rf.Model + s) 0 =
        fun (eq : Fin K) =>
          detTermF rf ((Thist + s + 1 : ℕ) : ℚ) (eq : ℕ) +
          ∑ lag ∈ Finset.Icc 1 (pOf rf.Model), ∑ j : Fin K,
            (rf.A.getD (lag - 1) 0) eq j *
              (fcBuf rf Thist yHist steps.toNat).getD (pOf rf.Model + s - lag) 0 j) := by
  have hpn : 0 < pOf rf.Model := by
    unfold pOf
    omega
  refine ⟨?_, ?_, fun i hi => fcBuf_seed rf Thist yHist _ hi, fun s hsn => ?_⟩
  · unfold Forecast
    rw [if_neg (by omega), if_neg (by omega), if_neg (by omega), if_neg (by omega)]
  · rw [List.length_drop, fcBuf_length]
    omega
  · exact ⟨getD_drop _ _ _ _, fcBuf_row_at rf Thist yHist hsn⟩

/-- Witness for C3 at the fitted scalar AR(1) model `y_t = 0.5 y_{t-1}`
with history `(1, 1/2, 1/4, 1/8, 1/16)` and three forecast steps. -/
theorem Forecast_recursive_witness :
    rfFc.A.length = pOf rfFc.Model ∧ 0 < rfFc.Model.Lags ∧ (0 : ℤ) < 3 ∧
      rfFc.Model.Lags ≤ ((5 : ℕ) : ℤ) ∧
    Forecast rfFc 5 Yhist 3 =
      .ok ((fcBuf rfFc 5 Yhist (3 : ℤ).toNat).drop (pOf rfFc.Model)) := by
  refine ⟨by decide, by decide, by decide, by decide, ?_⟩
  exact (Forecast_recursive rfFc 5 Yhist 3 (by decide) (by decide)
    (by decide) (by decide)).1

/-- C2: for a fitted model with `p > 0` lag matrices, horizon `> 0` and a
valid shock index, `IRF` succeeds and returns the `horizon × K` matrix
whose row `h` is `Ψ_h·shock`, where `Ψ_0 = I` and
`Ψ_h = Σ_{j=1..min(h,p)} A_j·Ψ_{h-j}`; in particular, a scalar model with
coefficient `a` and unit residual variance whose Cholesky factor the
library reports as a positive `L` with `L·Lᵀ = 1` yields `a^h` in row `h`. -/
theorem IRF_ma_recursion {K : ℕ} (rf : RFVar K) (horizon shockIndex : ℤ)
    (chol : Option (Matrix (Fin K) (Fin K) ℚ))
    (hA : rf.A.length = pOf rf.Model) (hp : 0 < rf.Model.Lags)
    (hh : 0 < horizon) (hs0 : 0 ≤ shockIndex) (hsK : shockIndex < (K : ℤ)) :
    IRF rf horizon shockIndex chol =
      .ok ((List.range horizon.toNat).map fun h => fun i =>
        ∑ j : Fin K, psi rf.A (pOf rf.Model) h i j *
          shockOf rf.SigmaU chol shockIndex.toNat j) ∧
    ((List.range horizon.toNat).map fun h => fun i =>
        ∑ j : Fin K, psi rf.A (pOf rf.Model) h i j *
          shockOf rf.SigmaU chol shockIndex.toNat j).length = horizon.toNat ∧
    (∀ h, h < horizon.toNat →
      ((List.range horizon.toNat).map fun h => fun i =>
        ∑ j : Fin K, psi rf.A (pOf rf.Model) h i j *
          shockOf rf.SigmaU chol shockIndex.toNat j).getD h 0 =
        fun i => ∑ j : Fin K, psi rf.A (pOf rf.Model) h i j *
          shockOf rf.SigmaU chol shockIndex.toNat j) ∧
    psi rf.A (pOf rf.Model) 0 = 1 ∧
    (∀ h, psi rf.A (pOf rf.Model) (h + 1) =
      ∑ j ∈ Finset.Icc 1 (min (h + 1) (pOf rf.Model)),
        rf.A.getD (j - 1) 0 * psi rf.A (pOf rf.Model) (h + 1 - j)) ∧
    (∀ (a : ℚ) (hz : ℤ) (L : Matrix (Fin 1) (Fin 1) ℚ), 0 < hz →
      L * Lᵀ = 1 → 0 < L 0 0 →
      ∀ rows, IRF (⟨specP1, [Matrix.of fun _ _ => a], none, some 1⟩ : RFVar 1)
          hz 0 (some L) = .ok rows →
        ∀ h, h < hz.toNat → rows.getD h 0 = fun _ => a ^ h) := by
  have hpn : 0 < pOf rf.Model := by
    unfold pOf
    omega
  refine ⟨?_, by simp, fun h hhn => getD_map_range _ hhn _, psi_zero _ _,
    fun h => psi_succ _ _ _, ?_⟩
  · unfold IRF
    rw [if_neg (by omega), if_neg (by omega), if_neg (by omega), if_neg (by omega)]
  · intro a hz L hhz hL hLpos rows hrows h hlt
    have hL1 : L 0 0 = 1 := by
      have h2 := congrFun (congrFun hL 0) 0
      simp [Matrix.mul_apply, Matrix.one_apply] at h2
      have h3 : (L 0 0 - 1) * (L 0 0 + 1) = 0 := by ring_nf; linarith [h2]
      rcases mul_eq_zero.mp h3 with h4 | h4
      · linarith
      · linarith
    have hrows2 : rows = (List.range hz.toNat).map fun h => fun i =>
        ∑ j : Fin 1, psi [(Matrix.of fun _ _ => a : Matrix (Fin 1) (Fin 1) ℚ)]
          (pOf specP1) h i j * shockOf (some 1) (some L) 0 j := by
      unfold IRF at hrows
      split_ifs at hrows with c1 c2 c3 c4
      all_goals first
        | exact (Except.ok.inj hrows).symm
        | simp at hrows
    rw [hrows2, getD_map_range _ hlt]
    have hpOne : pOf specP1 = 1 := rfl
    funext i
    rw [Fin.sum_univ_one, hpOne, psi_scalar]
    fin_cases i
    simp [shockOf, mget, hL1]

/-- Witness for C2 at the scalar model `y_t = 0.5 y_{t-1}` with unit
residual variance, horizon 3, Cholesky factor reported as the identity. -/
theorem IRF_ma_recursion_witness :
    rfIrf.A.length = pOf rfIrf.Model ∧ 0 < rfIrf.Model.Lags ∧ (0 : ℤ) < 3 ∧
      (0 : ℤ) ≤ 0 ∧ (0 : ℤ) < ((1 : ℕ) : ℤ) ∧
    IRF rfIrf 3 0 (some 1) =
      .ok ((List.range (3 : ℤ).toNat).map fun h => fun i =>
        ∑ j : Fin 1, psi rfIrf.A (pOf rfIrf.Model) h i j *
          shockOf rfIrf.SigmaU (some 1) (0 : ℤ).toNat j) := by
  refine ⟨by decide, by decide, by decide, by decide, by decide, ?_⟩
  exact (IRF_ma_recursion rfIrf 3 0 (some 1) (by decide) (by decide)
    (by decide) (by decide) (by decide)).1

/-- C6 (corrected): the shock vector is column `shockIndex` of the factor
`L` whenever the external Cholesky factorization succeeded (which the
library guarantees exactly for a present positive-definite covariance),
and the unit impulse when the covariance is absent or the factorization
failed; but the fallback is not flagged to the caller: the result is fully
determined by the lag matrices, horizon and shock vector, so a fallback
run and an orthogonalized run with equal shock vectors return identical
results. -/
theorem IRF_shock_construction {K : ℕ} (spec : ModelSpec)
    (A : List (Matrix (Fin K) (Fin K) ℚ)) (Copt : Option (ℕ → ℕ → ℚ))
    (horizon shockIndex : ℤ) :
    (∀ (Su L : Matrix (Fin K) (Fin K) ℚ)
      (chol : Option (Matrix (Fin K) (Fin K) ℚ)), chol = some L →
      shockOf (some Su) chol shockIndex.toNat =
        fun (i : Fin K) => mget L (i : ℕ) shockIndex.toNat) ∧
    (∀ (Su chol : Option (Matrix (Fin K) (Fin K) ℚ)),
      Su = none ∨ chol = none →
      shockOf Su chol shockIndex.toNat = unitShock K shockIndex.toNat) ∧
    (∀ (S1 S2 chol1 chol2 : Option (Matrix (Fin K) (Fin K) ℚ)),
      shockOf S1 chol1 shockIndex.toNat = shockOf S2 chol2 shockIndex.toNat →
      IRF ⟨spec, A, Copt, S1⟩ horizon shockIndex chol1 =
        IRF ⟨spec, A, Copt, S2⟩ horizon shockIndex chol2) := by
  refine ⟨?_, ?_, ?_⟩
  · rintro Su L chol rfl
    rfl
  · rintro Su chol (rfl | rfl)
    · rfl
    · cases Su <;> rfl
  · intro S1 S2 chol1 chol2 hsh
    unfold IRF
    rw [hsh]

/-- C6 counterexample to the flagging assertion: the zero covariance is not
positive-definite, so the factorization fails and the unit impulse is
used — yet the call's result is identical to the orthogonalized run with
identity covariance and identity Cholesky factor. Nothing in the returned
value flags the lower-fidelity fallback. -/
theorem IRF_shock_flag_cex :
    rfIrf0.SigmaU = some 0 ∧ ¬ qPosDef (0 : Matrix (Fin 1) (Fin 1) ℚ) ∧
    IRF rfIrf0 3 0 none = IRF rfIrf 3 0 (some 1) ∧
    IRF rfIrf0 3 0 none = .ok [fun _ => 1, fun _ => (1 : ℚ) / 2, fun _ => 1 / 4] :=
  ⟨rfl, c6_not_posdef, c6_same_output, c6_value⟩

/-- Witness for (amended) C6, instantiating the three parts at a scalar
model: Cholesky success uses the factor column, absence uses the unit
impulse, and the fallback run with zero covariance equals the
orthogonalized run with identity covariance. -/
theorem IRF_shock_construction_witness :
    (shockOf (some (1 : Matrix (Fin 1) (Fin 1) ℚ)) (some 1) (0 : ℤ).toNat =
      fun (i : Fin 1) => mget (1 : Matrix (Fin 1) (Fin 1) ℚ) (i : ℕ) (0 : ℤ).toNat) ∧
    (shockOf (none : Option (Matrix (Fin 1) (Fin 1) ℚ)) none (0 : ℤ).toNat =
      unitShock 1 (0 : ℤ).toNat) ∧
    (shockOf (some (0 : Matrix (Fin 1) (Fin 1) ℚ)) none (0 : ℤ).toNat =
      shockOf (some (1 : Matrix (Fin 1) (Fin 1) ℚ)) (some 1) (0 : ℤ).toNat) ∧
    IRF (⟨specP1, [Ahalf], none, some 0⟩ : RFVar 1) 3 0 none =
      IRF (⟨specP1, [Ahalf], none, some 1⟩ : RFVar 1) 3 0 (some 1) := by
  have hsh : shockOf (some (0 : Matrix (Fin 1) (Fin 1) ℚ)) none (0 : ℤ).toNat =
      shockOf (some (1 : Matrix (Fin 1) (Fin 1) ℚ)) (some 1) (0 : ℤ).toNat := by
    funext i
    fin_cases i
    simp [shockOf, unitShock, mget, Matrix.one_apply]
  refine ⟨(IRF_shock_construction specP1 [Ahalf] none 3 0).1 1 1 (some 1) rfl,
    (IRF_shock_construction specP1 [Ahalf] none 3 0).2.1 none none (Or.inl rfl),
    hsh,
    (IRF_shock_construction specP1 [Ahalf] none 3 0).2.2 (some 0) (some 1)
      none (some 1) hsh⟩

/-- C10: `GrangerCausality` performs no insufficient-data check: with valid
distinct indices and `T ≤ Lags`, the response vector would be constructed
with non-positive length `Treg = T - p`, `mat.NewVecDense` aborts the
program, and no error value is returned. -/
theorem GrangerCausality_short_series_panics (T K : ℕ) (Y : ℕ → ℕ → ℚ)
    (spec : ModelSpec) (causeIdx effectIdx : ℤ) (solU solR : Option (ℕ → ℚ))
    (cdf : ℚ → ℚ → ℚ → ℚ)
    (hc0 : 0 ≤ causeIdx) (hcK : causeIdx < (K : ℤ)) (he0 : 0 ≤ effectIdx)
    (heK : effectIdx < (K : ℤ)) (hne : causeIdx ≠ effectIdx)
    (hT : (T : ℤ) ≤ spec.Lags) :
    GrangerCausality T K Y spec causeIdx effectIdx solU solR cdf = .panic ∧
    ∀ e, GrangerCausality T K Y spec causeIdx effectIdx solU solR cdf ≠ .err e := by
  have hmain : GrangerCausality T K Y spec causeIdx effectIdx solU solR cdf = .panic := by
    unfold GrangerCausality
    rw [if_neg (by omega), if_neg (by omega), if_neg hne, if_pos (by omega)]
  refine ⟨hmain, fun e => ?_⟩
  rw [hmain]
  simp

/-- Witness for C10 at `T = 1`, `K = 2`, `p = 1`, indices `0 ≠ 1`. -/
theorem GrangerCausality_short_series_panics_witness :
    (0 : ℤ) ≤ 0 ∧ (0 : ℤ) < ((2 : ℕ) : ℤ) ∧ (0 : ℤ) ≤ 1 ∧ (1 : ℤ) < ((2 : ℕ) : ℤ) ∧
      (0 : ℤ) ≠ 1 ∧ ((1 : ℕ) : ℤ) ≤ specP1.Lags ∧
    GrangerCausality 1 2 Yzero specP1 0 1 (some fun _ => 0) (some fun _ => 0)
      (fun _ _ _ => 0) = .panic := by
  refine ⟨by decide, by decide, by decide, by decide, by decide, by decide, ?_⟩
  exact (GrangerCausality_short_series_panics 1 2 Yzero specP1 0 1
    (some fun _ => 0) (some fun _ => 0) (fun _ _ _ => 0)
    (by decide) (by decide) (by decide) (by decide) (by decide) (by decide)).1

/-- C5 (corrected): with valid distinct indices, `T > p` (so the call does
not abort, see C10) and both external least-squares solves succeeding with
least-squares solutions, the call fails with the
insufficient-degrees-of-freedom error iff `dof = Treg - (detCols + p·K) ≤ 0`;
otherwise it returns a result whose F-statistic is
`((RSS_r - RSS_u)/q) / (RSS_u/dof)` with `q = p`. -/
theorem GrangerCausality_fstatistic (T K : ℕ) (Y : ℕ → ℕ → ℚ) (spec : ModelSpec)
    (causeIdx effectIdx : ℤ) (βU βR : ℕ → ℚ) (cdf : ℚ → ℚ → ℚ → ℚ)
    (hc0 : 0 ≤ causeIdx) (hcK : causeIdx < (K : ℤ)) (he0 : 0 ≤ effectIdx)
    (heK : effectIdx < (K : ℤ)) (hne : causeIdx ≠ effectIdx)
    (hp : 0 < spec.Lags) (hT : spec.Lags < (T : ℤ))
    (hminU : IsLSSol ((T : ℤ) - spec.Lags).toNat
      ((detColsOf spec : ℤ) + spec.Lags * K).toNat
      (fun t => xrow Y spec K t) (grangerYE Y spec effectIdx.toNat) βU)
    (hminR : IsLSSol ((T : ℤ) - spec.Lags).toNat
      ((detColsOf spec : ℤ) + spec.Lags * ((K : ℤ) - 1)).toNat
      (fun t => xrowRstr Y spec K causeIdx.toNat t)
      (grangerYE Y spec effectIdx.toNat) βR) :
    ((GrangerCausality T K Y spec causeIdx effectIdx (some βU) (some βR) cdf =
        .err .insufficientDof) ↔ grangerDof T K spec ≤ 0) ∧
    (0 < grangerDof T K spec →
      ∃ r, GrangerCausality T K Y spec causeIdx effectIdx (some βU) (some βR) cdf =
          .ok r ∧
        r.FStatistic = ((grangerRssR T K Y spec βR causeIdx.toNat effectIdx.toNat -
          grangerRssU T K Y spec βU effectIdx.toNat) / ((spec.Lags : ℤ) : ℚ)) /
            (grangerRssU T K Y spec βU effectIdx.toNat / grangerDof T K spec)) := by
  have hmulU : (1 : ℤ) * 1 ≤ spec.Lags * (K : ℤ) :=
    mul_le_mul (by omega) (by omega) (by omega) (by omega)
  have hmulR : (1 : ℤ) * 1 ≤ spec.Lags * ((K : ℤ) - 1) :=
    mul_le_mul (by omega) (by omega) (by omega) (by omega)
  have hdc : (0 : ℤ) ≤ (detColsOf spec : ℤ) := by positivity
  have hq : (((spec.Lags : ℤ) : ℚ)) ≠ 0 := by
    have : (0 : ℤ) < spec.Lags := hp
    exact_mod_cast (by omega : ¬ (spec.Lags : ℤ) = 0)
  simp only [GrangerCausality]
  rw [if_neg (by omega), if_neg (by omega), if_neg hne, if_neg (by omega),
    if_neg (by omega), if_neg (by omega)]
  by_cases hdof : grangerDof T K spec ≤ 0
  · rw [if_pos hdof]
    exact ⟨iff_of_true rfl hdof, fun h => absurd h (by linarith)⟩
  · rw [if_neg hdof]
    push_neg at hdof
    constructor
    · split_ifs with hnan
      · exact iff_of_false (by simp) (by linarith)
      · exact iff_of_false (by simp) (by linarith)
    · intro _
      split_ifs with hnan
      · refine ⟨_, rfl, ?_⟩
        rcases hnan with hq0 | hrss0
        · exact absurd hq0 hq
        · rw [hrss0]
          simp
      · exact ⟨_, rfl, rfl⟩

/-- Counterexample for C5 as stated: at `T = 1 ≤ p = 1` with valid distinct
indices the degrees of freedom are negative, yet the call does not return
the insufficient-degrees-of-freedom error — it panics in `mat.NewVecDense`
before any degrees-of-freedom check is reached. -/
theorem GrangerCausality_fstatistic_cex :
    grangerDof 1 2 specP1 ≤ 0 ∧
    GrangerCausality 1 2 Yzero specP1 0 1 (some fun _ => 0) (some fun _ => 0)
      (fun _ _ _ => 0) = .panic ∧
    GrangerCausality 1 2 Yzero specP1 0 1 (some fun _ => 0) (some fun _ => 0)
      (fun _ _ _ => 0) ≠ .err .insufficientDof := by
  have hmain : GrangerCausality 1 2 Yzero specP1 0 1 (some fun _ => 0)
      (some fun _ => 0) (fun _ _ _ => 0) = .panic := by
    unfold GrangerCausality
    rw [if_neg (by decide), if_neg (by decide), if_neg (by decide),
      if_pos (by decide)]
  refine ⟨by norm_num [grangerDof, specP1, detColsOf, hasConstD, hasTrendD], hmain, ?_⟩
  rw [hmain]
  simp

/-- Witness for (amended) C5 at the all-zero series `T = 4`, `K = 2`,
`p = 1`: the solves succeed with the (least-squares) zero solutions, the
degrees of freedom are positive, and the returned F-statistic matches the
formula. -/
theorem GrangerCausality_fstatistic_witness :
    IsLSSol ((4 : ℤ) - specP1.Lags).toNat
      ((detColsOf specP1 : ℤ) + specP1.Lags * 2).toNat
      (fun t => xrow Yzero specP1 2 t) (grangerYE Yzero specP1 1) (fun _ => 0) ∧
    IsLSSol ((4 : ℤ) - specP1.Lags).toNat
      ((detColsOf specP1 : ℤ) + specP1.Lags * ((2 : ℤ) - 1)).toNat
      (fun t => xrowRstr Yzero specP1 2 0 t) (grangerYE Yzero specP1 1) (fun _ => 0) ∧
    0 < grangerDof 4 2 specP1 ∧
    (∃ r, GrangerCausality 4 2 Yzero specP1 0 1 (some fun _ => 0) (some fun _ => 0)
        (fun _ _ _ => 0) = .ok r ∧
      r.FStatistic = ((grangerRssR 4 2 Yzero specP1 (fun _ => 0) 0 1 -
        grangerRssU 4 2 Yzero specP1 (fun _ => 0) 1) / ((specP1.Lags : ℤ) : ℚ)) /
          (grangerRssU 4 2 Yzero specP1 (fun _ => 0) 1 / grangerDof 4 2 specP1)) := by
  have hU : IsLSSol ((4 : ℤ) - specP1.Lags).toNat
      ((detColsOf specP1 : ℤ) + specP1.Lags * 2).toNat
      (fun t => xrow Yzero specP1 2 t) (grangerYE Yzero specP1 1) (fun _ => 0) := by
    intro β'
    rw [rss_zero_series]
    exact rss_nonneg _ _ _ _ _
  have hR : IsLSSol ((4 : ℤ) - specP1.Lags).toNat
      ((detColsOf specP1 : ℤ) + specP1.Lags * ((2 : ℤ) - 1)).toNat
      (fun t => xrowRstr Yzero specP1 2 0 t) (grangerYE Yzero specP1 1) (fun _ => 0) := by
    intro β'
    rw [rss_zero_series]
    exact rss_nonneg _ _ _ _ _
  have hdof : 0 < grangerDof 4 2 specP1 := by
    norm_num [grangerDof, specP1, detColsOf, hasConstD, hasTrendD]
  exact ⟨hU, hR, hdof, (GrangerCausality_fstatistic 4 2 Yzero specP1 0 1
    (fun _ => 0) (fun _ => 0) (fun _ _ _ => 0) (by decide) (by decide) (by decide)
    (by decide) (by decide) (by decide) (by decide) hU hR).2 hdof⟩

/-- C9: every result returned without error has its p-value in `[0, 1]`;
in the non-finite-F fallback (restriction count zero or zero unrestricted
RSS, the exact-arithmetic sources of NaN/Inf) it carries `F = 0`,
`p = 1`; otherwise the p-value is the clamped right tail
`clamp01(1 - CDF_{F(q, dof)}(F))`; and `Significant` holds iff
`pValue < 0.05` — for every CDF the external library could implement. -/
theorem GrangerCausality_result_bounds (T K : ℕ) (Y : ℕ → ℕ → ℚ) (spec : ModelSpec)
    (causeIdx effectIdx : ℤ) (βU βR : ℕ → ℚ) (cdf : ℚ → ℚ → ℚ → ℚ) (r : GResult)
    (h : GrangerCausality T K Y spec causeIdx effectIdx (some βU) (some βR) cdf =
      .ok r) :
    (0 ≤ r.PValue ∧ r.PValue ≤ 1) ∧
    ((((spec.Lags : ℤ) : ℚ) = 0 ∨ grangerRssU T K Y spec βU effectIdx.toNat = 0) →
      r.FStatistic = 0 ∧ r.PValue = 1) ∧
    (¬(((spec.Lags : ℤ) : ℚ) = 0 ∨ grangerRssU T K Y spec βU effectIdx.toNat = 0) →
      r.PValue = clamp01 (1 - cdf ((spec.Lags : ℤ) : ℚ) (grangerDof T K spec)
        r.FStatistic)) ∧
    (r.Significant = true ↔ r.PValue < 1 / 20) := by
  simp only [GrangerCausality] at h
  split_ifs at h with h1 h2 h3 h4 h5 h6 h7 h8
  · injection h with hr
    subst hr
    refine ⟨by norm_num, fun _ => ⟨rfl, rfl⟩, fun hc => absurd h8 hc, ?_⟩
    simp only [decide_eq_true_eq]
  · injection h with hr
    subst hr
    exact ⟨clamp01_bounds _, fun hc => absurd hc h8, fun _ => rfl,
      by simp only [decide_eq_true_eq]⟩

/-- Witness for C9 at the all-zero series instance: the call returns a
result, and the conclusions hold for it. -/
theorem GrangerCausality_result_bounds_witness :
    ∃ r, GrangerCausality 4 2 Yzero specP1 0 1 (some fun _ => 0) (some fun _ => 0)
        (fun _ _ _ => 0) = .ok r ∧
      (0 ≤ r.PValue ∧ r.PValue ≤ 1) ∧
      (r.Significant = true ↔ r.PValue < 1 / 20) := by
  obtain ⟨r, hr, -⟩ := (GrangerCausality_fstatistic 4 2 Yzero specP1 0 1
    (fun _ => 0) (fun _ => 0) (fun _ _ _ => 0) (by decide) (by decide) (by decide)
    (by decide) (by decide) (by decide) (by decide)
    (by intro β'
        rw [rss_zero_series]
        exact rss_nonneg _ _ _ _ _)
    (by intro β'
        rw [rss_zero_series]
        exact rss_nonneg _ _ _ _ _)).2
    (by norm_num [grangerDof, specP1, detColsOf, hasConstD, hasTrendD])
  have hb := GrangerCausality_result_bounds 4 2 Yzero specP1 0 1
    (fun _ => 0) (fun _ => 0) (fun _ _ _ => 0) r hr
  exact ⟨r, hr, hb.1, hb.2.2.2⟩

end InfluenzaVAR
